import Mathlib

/-!
# Glob library of Dynamic-Interface-Patcher (`src/res/glob/dllmain.cpp`)

A shallow embedding of the three functions of the library

* `pattern_to_regex` (lines 27-48),
* `glob_clear` (lines 53-57),
* `glob_cpp` (lines 59-103),

together with the two process-wide buffers `stringResult` and `returnValues`
(lines 50-51), followed by the properties of the specification.

Conventions of the embedding.

* A `std::string` / `const char *` is the `List Char` of its characters (the
  characters before the terminator).
* The two static vectors are the fields of `Buffers`; every exported function
  is a function on `Buffers`. A `const char *` stored in `returnValues` is the
  position, in `stringResult`, of the string it points into.
* A C++ exception leaving `glob_cpp` is an `Except.error`; the buffers keep
  whatever they held when it was raised, so `glob_cpp` returns the outcome
  paired with the buffers.
* `std::regex` and `std::filesystem` are the standard library, not code of the
  repository. `glob_cpp` takes the regex engine (`RegexEngine`) and the file
  system (`FileSystem`) as parameters. The engine `ecmascript beyond` fixes
  the behaviour of `std::regex` on the expressions that the supported glob
  vocabulary translates to, and leaves every other expression to `beyond`.
-/

namespace Glob

/-! ## Pattern translator -/

/-- Lines 27-48: the loop `for (char c : pattern)` with its `switch`, the
accumulator being the local `regex_pattern`. -/
def pattern_to_regex (pattern : List Char) : List Char :=
  pattern.foldl (fun regex_pattern c =>
    if c = '*' then regex_pattern ++ ['.', '*']
    else if c = '?' then regex_pattern ++ ['.']
    else if c = '.' then regex_pattern ++ ['\\', '.']
    else regex_pattern ++ [c]) []

/-- The per-character policy in the words of the specification: `*` becomes
`.*`, `?` becomes `.`, `.` becomes backslash-dot, anything else is copied. -/
def image (c : Char) : List Char :=
  if c = '*' then ['.', '*']
  else if c = '?' then ['.']
  else if c = '.' then ['\\', '.']
  else [c]

/-! ## The regular-expression engine (`std::regex`, ECMAScript grammar) -/

/-- What `glob_cpp` uses of `<regex>`: the constructor `std::regex(string)`
(line 63), which throws `std::regex_error` on an expression it cannot compile
(`none`), and `std::regex_match(string, regex)` (line 70). -/
structure RegexEngine where
  /-- The compiled expression. -/
  basic_regex : Type
  /-- The constructor `std::regex(expression)`; `none` is `std::regex_error`. -/
  compile : List Char → Option basic_regex
  /-- Whole-string matching: `std::regex_match(subject, re)`. -/
  regex_match : List Char → basic_regex → Bool

/-- The ECMAScript `SyntaxCharacter`s: the characters with a special meaning
to the regex engine. Every other character is a `PatternCharacter`, which
matches itself. -/
def isSyntaxCharacter (c : Char) : Bool :=
  c = '^' || c = '$' || c = '\\' || c = '.' || c = '*' || c = '+' || c = '?'
    || c = '(' || c = ')' || c = '[' || c = ']' || c = '{' || c = '}' || c = '|'

/-- The line terminators of `char` strings: the ECMAScript atom `.` matches
any character except these. -/
def isLineTerminator (c : Char) : Bool :=
  c = '\n' || c = '\r'

/-- An atom of the modelled fragment: a character matching itself (a
`PatternCharacter`, or an escaped `SyntaxCharacter`), or the atom `.`. -/
inductive Atom where
  | chr (c : Char)
  | any
  deriving DecidableEq

/-- A term of the modelled fragment: an atom, or an atom under `*`. -/
inductive Term where
  | one (a : Atom)
  | star (a : Atom)
  deriving DecidableEq

/-- Parser of the fragment, left to right, `acc` holding the terms read so far
(last one first). Accepted are sequences of atoms, each optionally followed by
one `*`, where an atom is a `PatternCharacter`, `.`, or a backslash followed
by a `SyntaxCharacter`. `none` means the expression is not of that shape. -/
def parseFrom (acc : List Term) : List Char → Option (List Term)
  | [] => some acc.reverse
  | c :: rest =>
    if c = '\\' then
      match rest with
      | [] => none
      | e :: rest' =>
        if isSyntaxCharacter e then parseFrom (Term.one (Atom.chr e) :: acc) rest' else none
    else if c = '.' then parseFrom (Term.one Atom.any :: acc) rest
    else if c = '*' then
      match acc with
      | Term.one a :: acc' => parseFrom (Term.star a :: acc') rest
      | _ => none
    else if isSyntaxCharacter c then none
    else parseFrom (Term.one (Atom.chr c) :: acc) rest

/-- Whether an atom accepts a character: a character atom accepts exactly
that character (comparison is case-sensitive, no `icase` flag is passed at
line 63); `.` accepts everything but a line terminator. -/
def Atom.accepts : Atom → Char → Bool
  | Atom.chr a, c => a = c
  | Atom.any, c => !isLineTerminator c

/-- The term `a*` followed by the continuation `k`: `a*` takes some run of
characters accepted by `a`, and `k` has to accept what is left. -/
def matchStar (a : Atom) (k : List Char → Bool) : List Char → Bool
  | [] => k []
  | c :: s => k (c :: s) || (a.accepts c && matchStar a k s)

/-- Whole-string matching of a sequence of terms. -/
def matchTerms : List Term → List Char → Bool
  | [], s => s.isEmpty
  | Term.one a :: ts, s =>
    match s with
    | [] => false
    | c :: s' => a.accepts c && matchTerms ts s'
  | Term.star a :: ts, s => matchStar a (matchTerms ts) s

/-- The engine `std::regex` with the default (ECMAScript) grammar: on an
expression of the modelled fragment it compiles to the parsed terms and
matches by `matchTerms`; any other expression (groups, alternation, brackets,
other quantifiers and escapes, anchors, ...) is handed to `beyond`, so that
nothing is assumed about it. -/
def ecmascript (beyond : RegexEngine) : RegexEngine where
  basic_regex := List Term ⊕ beyond.basic_regex
  compile expression :=
    match parseFrom [] expression with
    | some ts => some (Sum.inl ts)
    | none => (beyond.compile expression).map Sum.inr
  regex_match subject re :=
    match re with
    | Sum.inl ts => matchTerms ts subject
    | Sum.inr r => beyond.regex_match subject r

/-- An engine that compiles nothing: used where a concrete engine is needed and
only expressions of the modelled fragment (or rejected ones) are involved. -/
def rejecting : RegexEngine where
  basic_regex := Unit
  compile _ := none
  regex_match _ _ := false

/-! ## The file system (`std::filesystem`) -/

/-- A `std::filesystem::directory_entry` as `glob_cpp` observes it:
`entry.path().string()`, `entry.path().filename().string()` and
`entry.is_regular_file()`. -/
structure directory_entry where
  path : List Char
  filename : List Char
  is_regular_file : Bool
  deriving DecidableEq

/-- The contents of a directory, in the order the directory iterator yields
them. `file` is an entry that is not a directory to descend into (`regular`
says whether `is_regular_file()` holds for it); `dir` is a subdirectory with
its own contents; `fail` is a point where reading the directory raises
`std::filesystem::filesystem_error` (as the contents of a `dir`: the
subdirectory cannot be opened). -/
inductive Listing where
  | done
  | fail
  | file (path filename : List Char) (regular : Bool) (rest : Listing)
  | dir (path filename : List Char) (contents : Listing) (rest : Listing)
  deriving DecidableEq

/-- What a range-`for` over a directory iterator goes through: the entries
yielded, and whether the end was reached (`true`) or the iterator raised
`filesystem_error` after them (`false`). -/
structure Walk where
  entries : List directory_entry
  completed : Bool
  deriving DecidableEq

/-- The iterator `std::filesystem::directory_iterator`: direct children only;
a subdirectory is yielded as an entry that is not a regular file. -/
def directory_iterator : Listing → Walk
  | Listing.done => ⟨[], true⟩
  | Listing.fail => ⟨[], false⟩
  | Listing.file p f r rest =>
    ⟨⟨p, f, r⟩ :: (directory_iterator rest).entries, (directory_iterator rest).completed⟩
  | Listing.dir p f _ rest =>
    ⟨⟨p, f, false⟩ :: (directory_iterator rest).entries, (directory_iterator rest).completed⟩

/-- The iterator `std::filesystem::recursive_directory_iterator`: a
subdirectory is yielded and then entered, its contents coming before its
siblings; a failure inside it ends the whole iteration. -/
def recursive_directory_iterator : Listing → Walk
  | Listing.done => ⟨[], true⟩
  | Listing.fail => ⟨[], false⟩
  | Listing.file p f r rest =>
    ⟨⟨p, f, r⟩ :: (recursive_directory_iterator rest).entries,
      (recursive_directory_iterator rest).completed⟩
  | Listing.dir p f contents rest =>
    if (recursive_directory_iterator contents).completed then
      ⟨⟨p, f, false⟩ :: ((recursive_directory_iterator contents).entries
          ++ (recursive_directory_iterator rest).entries),
        (recursive_directory_iterator rest).completed⟩
    else
      ⟨⟨p, f, false⟩ :: (recursive_directory_iterator contents).entries, false⟩

/-- The entries lying inside the subdirectories of a listing, at any depth. -/
def Listing.nested : Listing → List directory_entry
  | Listing.done => []
  | Listing.fail => []
  | Listing.file _ _ _ rest => rest.nested
  | Listing.dir _ _ contents rest =>
    (directory_iterator contents).entries ++ contents.nested ++ rest.nested

/-- The file system as the iterator constructors see it: the contents of the
directory a path names, `none` when the path does not name a directory that
can be opened (the constructor then raises `filesystem_error`). -/
abbrev FileSystem := List Char → Option Listing

/-! ## The buffers and the exported functions -/

/-- Lines 50-51: the two static vectors. -/
structure Buffers where
  stringResult : List (List Char)
  returnValues : List Nat
  deriving DecidableEq

/-- The strings a caller reaches through the exposed references. -/
def Buffers.exposed (b : Buffers) : List (List Char) :=
  b.returnValues.filterMap (fun i => b.stringResult.get? i)

/-- The exceptions that leave `glob_cpp`: `std::regex_error` (the
specification's `InvalidPattern`) and `std::filesystem::filesystem_error`
(the specification's `DirectoryAccessError`). -/
inductive Failure where
  | regex_error
  | filesystem_error
  deriving DecidableEq

/-- What `glob_cpp` hands back on a normal return: the array
`returnValues.data()` and the value stored to `*out_size`. -/
structure Returned where
  data : List Nat
  out_size : Nat
  deriving DecidableEq

/-- Lines 53-57. -/
def glob_clear (b : Buffers) : Buffers :=
  let b := { b with returnValues := [] }
  { b with stringResult := [] }

/-- Lines 65-73: the lambda `checkFile`. -/
def checkFile (E : RegexEngine) (pattern_regex : E.basic_regex) (entry : directory_entry) : Bool :=
  if entry.is_regular_file then
    E.regex_match entry.filename pattern_regex
  else
    false

/-- Lines 77-83 and 87-93: the body of either range-`for`, run over the
entries the iterator yields. -/
def collect (E : RegexEngine) (pattern_regex : E.basic_regex)
    (entries : List directory_entry) (stringResult : List (List Char)) : List (List Char) :=
  entries.foldl (fun acc entry =>
    if checkFile E pattern_regex entry then acc ++ [entry.path] else acc) stringResult

/-- Lines 96-99: one reference per staged string, in order. -/
def expose (b : Buffers) : Buffers :=
  (List.range b.stringResult.length).foldl
    (fun acc i => { acc with returnValues := acc.returnValues ++ [i] }) b

/-- Lines 59-103. -/
def glob_cpp (E : RegexEngine) (fs : FileSystem) (pattern basePath : List Char)
    (recursive : Bool) (b : Buffers) : Except Failure Returned × Buffers :=
  let b := glob_clear b
  match E.compile (pattern_to_regex pattern) with
  | none => (Except.error Failure.regex_error, b)
  | some pattern_regex =>
    match fs basePath with
    | none => (Except.error Failure.filesystem_error, b)
    | some listing =>
      let walk := if recursive then recursive_directory_iterator listing
        else directory_iterator listing
      let b := { b with stringResult := collect E pattern_regex walk.entries b.stringResult }
      if walk.completed then
        let b := expose b
        (Except.ok ⟨b.returnValues, b.returnValues.length⟩, b)
      else
        (Except.error Failure.filesystem_error, b)

/-! ## Notions of the specification -/

/-- Shell-glob matching in the words of the specification: `*` stands for any
run of zero or more characters, `?` for exactly one arbitrary character, and
every other character only for itself. -/
def ShellGlob : List Char → List Char → Prop
  | [], name => name = []
  | p :: ps, name =>
    if p = '*' then ∃ run rest, name = run ++ rest ∧ ShellGlob ps rest
    else if p = '?' then ∃ c rest, name = c :: rest ∧ ShellGlob ps rest
    else ∃ rest, name = p :: rest ∧ ShellGlob ps rest

/-- The paths of the entries that are regular files and whose base filename
the compiled pattern matches, in the order of the entries. -/
def matching (E : RegexEngine) (re : E.basic_regex)
    (entries : List directory_entry) : List (List Char) :=
  (entries.filter (fun e => e.is_regular_file && E.regex_match e.filename re)).map (·.path)

/-- A call on the exported interface. A scan carries the file system it
runs against, which may change from one call to the next. -/
inductive Call where
  | clear
  | scan (fs : FileSystem) (pattern basePath : List Char) (recursive : Bool)

/-- The effect of one call on the buffers. -/
def Call.run (E : RegexEngine) : Call → Buffers → Buffers
  | Call.clear, b => glob_clear b
  | Call.scan fs pattern basePath recursive, b => (glob_cpp E fs pattern basePath recursive b).2

/-- The buffers after a sequence of calls, starting from the freshly loaded
library (both vectors empty). -/
def runCalls (E : RegexEngine) (calls : List Call) : Buffers :=
  calls.foldl (fun b c => c.run E b) ⟨[], []⟩

/-- A scan that fails part-way through the walk: the pattern compiles, the
directory is opened, and the iterator raises before reaching the end. -/
def Call.failsMidWalk (E : RegexEngine) : Call → Prop
  | Call.clear => False
  | Call.scan fs pattern basePath recursive =>
    ∃ re listing, E.compile (pattern_to_regex pattern) = some re ∧ fs basePath = some listing ∧
      (if recursive then recursive_directory_iterator listing
        else directory_iterator listing).completed = false

/-- The direct children of a listing that are regular files. -/
def Listing.regularFiles : Listing → List directory_entry
  | Listing.done => []
  | Listing.fail => []
  | Listing.file p f r rest => if r then ⟨p, f, true⟩ :: rest.regularFiles else rest.regularFiles
  | Listing.dir _ _ _ rest => rest.regularFiles

/-- The supported glob vocabulary: `*`, `?`, `.`, and the characters with no
special meaning to the regex engine. -/
def supported (c : Char) : Bool :=
  c = '*' || c = '?' || c = '.' || !isSyntaxCharacter c

/-- The literal part of the supported vocabulary: `.` and the characters with
no special meaning to the regex engine. -/
def literal (c : Char) : Bool :=
  c = '.' || !isSyntaxCharacter c

/-- The term a character of the supported vocabulary compiles to, by way of
its image under `pattern_to_regex`. -/
def token (c : Char) : Term :=
  if c = '*' then Term.star Atom.any
  else if c = '?' then Term.one Atom.any
  else Term.one (Atom.chr c)

/-! ## Sample inputs -/

/-- A directory `d` holding `a.txt`, `b.TXT`, `a.txt.bak` and the subdirectory
`sub` with `c.txt`. -/
def sampleDir : Listing :=
  Listing.file "d\\a.txt".toList "a.txt".toList true <|
  Listing.file "d\\b.TXT".toList "b.TXT".toList true <|
  Listing.file "d\\a.txt.bak".toList "a.txt.bak".toList true <|
  Listing.dir "d\\sub".toList "sub".toList
    (Listing.file "d\\sub\\c.txt".toList "c.txt".toList true Listing.done) <|
  Listing.done

/-- A file system in which `d` is the only directory. -/
def sampleFs : FileSystem := fun p => if p = "d".toList then some sampleDir else none

/-- A directory `d` holding `a.txt` and a subdirectory `locked` that cannot be
opened. -/
def lockedDir : Listing :=
  Listing.file "d\\a.txt".toList "a.txt".toList true <|
  Listing.dir "d\\locked".toList "locked".toList Listing.fail <|
  Listing.done

/-- A file system in which `d` is the only directory and holds `lockedDir`. -/
def lockedFs : FileSystem := fun p => if p = "d".toList then some lockedDir else none

/-! ## Auxiliary lemmas -/

theorem foldl_translate (p : List Char) : ∀ acc : List Char,
    p.foldl (fun regex_pattern c =>
      if c = '*' then regex_pattern ++ ['.', '*']
      else if c = '?' then regex_pattern ++ ['.']
      else if c = '.' then regex_pattern ++ ['\\', '.']
      else regex_pattern ++ [c]) acc = acc ++ p.flatMap image := by
  induction p with
  | nil => intro acc; simp
  | cons c cs ih =>
    intro acc
    rw [List.foldl_cons, ih, List.flatMap_cons]
    unfold image
    split_ifs <;> simp

theorem pattern_to_regex_flatMap (p : List Char) : pattern_to_regex p = p.flatMap image := by
  unfold pattern_to_regex
  rw [foldl_translate]
  simp

theorem pattern_to_regex_cons (c : Char) (p : List Char) :
    pattern_to_regex (c :: p) = image c ++ pattern_to_regex p := by
  simp [pattern_to_regex_flatMap]

theorem pattern_to_regex_append (p q : List Char) :
    pattern_to_regex (p ++ q) = pattern_to_regex p ++ pattern_to_regex q := by
  simp [pattern_to_regex_flatMap]

theorem collect_eq (E : RegexEngine) (re : E.basic_regex) (entries : List directory_entry) :
    ∀ acc, collect E re entries acc = acc ++ matching E re entries := by
  induction entries with
  | nil => intro acc; simp [collect, matching]
  | cons e es ih =>
    intro acc
    have h := ih
    unfold collect at h ⊢
    rw [List.foldl_cons, h]
    unfold checkFile matching
    cases hr : e.is_regular_file <;> cases hm : E.regex_match e.filename re <;>
      simp [List.filter_cons, hr, hm]

theorem foldl_expose (l : List Nat) : ∀ b : Buffers,
    l.foldl (fun acc i => { acc with returnValues := acc.returnValues ++ [i] }) b
      = ⟨b.stringResult, b.returnValues ++ l⟩ := by
  induction l with
  | nil => intro b; simp
  | cons i is ih => intro b; rw [List.foldl_cons, ih]; simp

theorem expose_eq (b : Buffers) :
    expose b = ⟨b.stringResult, b.returnValues ++ List.range b.stringResult.length⟩ := by
  unfold expose
  rw [foldl_expose]

theorem filterMap_get?_range (xs : List (List Char)) :
    (List.range xs.length).filterMap (fun i => xs.get? i) = xs := by
  induction xs using List.reverseRecOn with
  | nil => rfl
  | append_singleton ys y ih =>
    rw [List.length_append, List.length_singleton, List.range_succ, List.filterMap_append]
    have h1 : List.filterMap (fun i => (ys ++ [y]).get? i) (List.range ys.length) = ys := by
      conv_rhs => rw [← ih]
      apply List.filterMap_congr
      intro i hi
      rw [List.mem_range] at hi
      simp [List.get?_eq_getElem?, List.getElem?_append_left hi]
    rw [h1]
    simp [List.get?_eq_getElem?]

theorem exposed_range (xs : List (List Char)) :
    Buffers.exposed ⟨xs, List.range xs.length⟩ = xs :=
  filterMap_get?_range xs

/-- The closed form of `glob_cpp`. -/
theorem glob_cpp_eq (E : RegexEngine) (fs : FileSystem) (pattern basePath : List Char)
    (recursive : Bool) (b : Buffers) :
    glob_cpp E fs pattern basePath recursive b =
      match E.compile (pattern_to_regex pattern) with
      | none => (Except.error Failure.regex_error, ⟨[], []⟩)
      | some re =>
        match fs basePath with
        | none => (Except.error Failure.filesystem_error, ⟨[], []⟩)
        | some listing =>
          let walk := if recursive then recursive_directory_iterator listing
            else directory_iterator listing
          let found := matching E re walk.entries
          if walk.completed then
            (Except.ok ⟨List.range found.length, found.length⟩, ⟨found, List.range found.length⟩)
          else
            (Except.error Failure.filesystem_error, ⟨found, []⟩) := by
  unfold glob_cpp glob_clear
  cases hc : E.compile (pattern_to_regex pattern) with
  | none => rfl
  | some re =>
    cases hf : fs basePath with
    | none => rfl
    | some listing =>
      simp only [collect_eq, expose_eq, List.nil_append, List.length_range]

theorem recursive_completed_direct (l : Listing) :
    (recursive_directory_iterator l).completed = true → (directory_iterator l).completed = true := by
  induction l with
  | done => intro _; rfl
  | fail => intro h; exact h
  | file p f r rest ih => intro h; exact ih h
  | dir p f c rest _ ih =>
    intro h
    unfold recursive_directory_iterator at h
    split_ifs at h with hc
    exact ih h

theorem recursive_entries_perm (l : Listing) :
    (recursive_directory_iterator l).completed = true →
      List.Perm (recursive_directory_iterator l).entries
        ((directory_iterator l).entries ++ l.nested) := by
  induction l with
  | done => intro _; exact List.Perm.refl _
  | fail => intro _; exact List.Perm.refl _
  | file p f r rest ih =>
    intro h
    exact List.Perm.cons _ (ih h)
  | dir p f c rest ihc ih =>
    intro h
    unfold recursive_directory_iterator at h ⊢
    split_ifs at h ⊢ with hc
    simp only [directory_iterator, Listing.nested, List.cons_append]
    refine List.Perm.cons _ ?_
    have h1 := ihc hc
    have h2 := ih h
    refine (List.Perm.append h1 h2).trans ?_
    rw [← List.append_assoc, ← List.append_assoc]
    exact List.Perm.append_right _ List.perm_append_comm

theorem matching_append (E : RegexEngine) (re : E.basic_regex) (xs ys : List directory_entry) :
    matching E re (xs ++ ys) = matching E re xs ++ matching E re ys := by
  simp [matching]

theorem matching_perm (E : RegexEngine) (re : E.basic_regex) {xs ys : List directory_entry}
    (h : List.Perm xs ys) : List.Perm (matching E re xs) (matching E re ys) :=
  List.Perm.map _ (List.Perm.filter _ h)

theorem parseFrom_dot (acc : List Term) (rest : List Char) :
    parseFrom acc ('.' :: rest) = parseFrom (Term.one Atom.any :: acc) rest := by
  rw [parseFrom.eq_def]
  simp

theorem parseFrom_star (a : Atom) (acc : List Term) (rest : List Char) :
    parseFrom (Term.one a :: acc) ('*' :: rest) = parseFrom (Term.star a :: acc) rest := by
  rw [parseFrom.eq_def]
  simp

theorem parseFrom_escape (acc : List Term) (e : Char) (rest : List Char)
    (he : isSyntaxCharacter e = true) :
    parseFrom acc ('\\' :: e :: rest) = parseFrom (Term.one (Atom.chr e) :: acc) rest := by
  rw [parseFrom.eq_def]
  simp [he]

theorem parseFrom_char (acc : List Term) (c : Char) (rest : List Char)
    (hc : isSyntaxCharacter c = false) :
    parseFrom acc (c :: rest) = parseFrom (Term.one (Atom.chr c) :: acc) rest := by
  have h1 : c ≠ '\\' := by
    rintro rfl
    exact absurd hc (by decide)
  have h2 : c ≠ '.' := by
    rintro rfl
    exact absurd hc (by decide)
  have h3 : c ≠ '*' := by
    rintro rfl
    exact absurd hc (by decide)
  rw [parseFrom.eq_def]
  simp [h1, h2, h3, hc]

theorem parseFrom_translate (p : List Char) (hp : ∀ c ∈ p, supported c = true) :
    ∀ acc, parseFrom acc (pattern_to_regex p) = some (acc.reverse ++ p.map token) := by
  induction p with
  | nil => intro acc; simp [pattern_to_regex, parseFrom]
  | cons c cs ih =>
    intro acc
    have hc : supported c = true := hp c (List.mem_cons_self _ _)
    have ih := ih (fun x hx => hp x (List.mem_cons_of_mem _ hx))
    rw [pattern_to_regex_cons]
    by_cases h1 : c = '*'
    · subst h1
      have : image '*' = ['.', '*'] := rfl
      rw [this, List.cons_append, List.cons_append, List.nil_append, parseFrom_dot,
        parseFrom_star, ih]
      simp [token]
    · by_cases h2 : c = '?'
      · subst h2
        have : image '?' = ['.'] := rfl
        rw [this, List.cons_append, List.nil_append, parseFrom_dot, ih]
        simp [token]
      · by_cases h3 : c = '.'
        · subst h3
          have : image '.' = ['\\', '.'] := rfl
          rw [this, List.cons_append, List.cons_append, List.nil_append,
            parseFrom_escape _ _ _ (by decide), ih]
          simp [token]
        · have hs : isSyntaxCharacter c = false := by
            simpa [supported, h1, h2, h3] using hc
          have : image c = [c] := by simp [image, h1, h2, h3]
          rw [this, List.cons_append, List.nil_append, parseFrom_char _ _ _ hs, ih]
          simp [token, h1, h2]

theorem matchStar_iff (a : Atom) (k : List Char → Bool) (s : List Char) :
    matchStar a k s = true ↔
      ∃ run rest, s = run ++ rest ∧ (∀ c ∈ run, a.accepts c = true) ∧ k rest = true := by
  induction s with
  | nil =>
    simp only [matchStar]
    constructor
    · intro h
      exact ⟨[], [], rfl, by simp, h⟩
    · rintro ⟨run, rest, h, -, hk⟩
      have : rest = [] := (List.append_eq_nil.mp h.symm).2
      rw [this] at hk
      exact hk
  | cons c s ih =>
    simp only [matchStar, Bool.or_eq_true, Bool.and_eq_true, ih]
    constructor
    · rintro (h | ⟨hc, run, rest, rfl, hrun, hk⟩)
      · exact ⟨[], c :: s, rfl, by simp, h⟩
      · refine ⟨c :: run, rest, rfl, ?_, hk⟩
        intro x hx
        rcases List.mem_cons.mp hx with rfl | hx
        · exact hc
        · exact hrun x hx
    · rintro ⟨run, rest, h, hrun, hk⟩
      cases run with
      | nil =>
        left
        rw [List.nil_append] at h
        rw [h]
        exact hk
      | cons x run =>
        right
        rw [List.cons_append, List.cons.injEq] at h
        obtain ⟨rfl, rfl⟩ := h
        exact ⟨hrun _ (List.mem_cons_self _ _), run, rest, rfl,
          fun y hy => hrun y (List.mem_cons_of_mem _ hy), hk⟩

theorem matchTerms_glob (p : List Char) :
    ∀ name : List Char, (∀ c ∈ name, isLineTerminator c = false) →
      (matchTerms (p.map token) name = true ↔ ShellGlob p name) := by
  induction p with
  | nil =>
    intro name _
    cases name <;> simp [matchTerms, ShellGlob]
  | cons c cs ih =>
    intro name hname
    rw [List.map_cons]
    by_cases h1 : c = '*'
    · subst h1
      have ht : token '*' = Term.star Atom.any := rfl
      have hg : ShellGlob ('*' :: cs) name ↔ ∃ run rest, name = run ++ rest ∧ ShellGlob cs rest := by
        simp [ShellGlob]
      rw [ht, hg]
      simp only [matchTerms]
      rw [matchStar_iff]
      constructor
      · rintro ⟨run, rest, rfl, -, hk⟩
        exact ⟨run, rest, rfl,
          (ih rest (fun x hx => hname x (List.mem_append_right _ hx))).mp hk⟩
      · rintro ⟨run, rest, rfl, hk⟩
        refine ⟨run, rest, rfl, ?_,
          (ih rest (fun x hx => hname x (List.mem_append_right _ hx))).mpr hk⟩
        intro x hx
        simp [Atom.accepts, hname x (List.mem_append_left _ hx)]
    · by_cases h2 : c = '?'
      · subst h2
        have ht : token '?' = Term.one Atom.any := rfl
        have hg : ShellGlob ('?' :: cs) name ↔ ∃ x rest, name = x :: rest ∧ ShellGlob cs rest := by
          simp [ShellGlob]
        rw [ht, hg]
        cases name with
        | nil => simp [matchTerms]
        | cons x rest =>
          have hx : isLineTerminator x = false := hname x (List.mem_cons_self _ _)
          have := ih rest (fun y hy => hname y (List.mem_cons_of_mem _ hy))
          simp only [matchTerms, Atom.accepts, hx, Bool.not_false, Bool.true_and, this,
            List.cons.injEq]
          constructor
          · intro h
            exact ⟨x, rest, ⟨rfl, rfl⟩, h⟩
          · rintro ⟨y, r, ⟨rfl, rfl⟩, h⟩
            exact h
      · have ht : token c = Term.one (Atom.chr c) := by simp [token, h1, h2]
        have hg : ShellGlob (c :: cs) name ↔ ∃ rest, name = c :: rest ∧ ShellGlob cs rest := by
          simp [ShellGlob, h1, h2]
        rw [ht, hg]
        cases name with
        | nil => simp [matchTerms]
        | cons x rest =>
          have := ih rest (fun y hy => hname y (List.mem_cons_of_mem _ hy))
          simp only [matchTerms, Atom.accepts, Bool.and_eq_true, decide_eq_true_eq, this,
            List.cons.injEq]
          constructor
          · rintro ⟨rfl, h⟩
            exact ⟨rest, ⟨rfl, rfl⟩, h⟩
          · rintro ⟨r, ⟨rfl, rfl⟩, h⟩
            exact ⟨rfl, h⟩

theorem token_literal (c : Char) (h : literal c = true) : token c = Term.one (Atom.chr c) := by
  have h1 : c ≠ '*' := by
    rintro rfl
    exact absurd h (by decide)
  have h2 : c ≠ '?' := by
    rintro rfl
    exact absurd h (by decide)
  simp [token, h1, h2]

theorem matchTerms_literals (q : List Char) (hq : ∀ c ∈ q, literal c = true) (ts : List Term) :
    ∀ name : List Char, matchTerms (q.map token ++ ts) name = true ↔
      ∃ rest, name = q ++ rest ∧ matchTerms ts rest = true := by
  induction q with
  | nil => intro name; simp
  | cons c cs ih =>
    intro name
    have ih := ih (fun x hx => hq x (List.mem_cons_of_mem _ hx))
    rw [List.map_cons, token_literal c (hq c (List.mem_cons_self _ _)), List.cons_append]
    cases name with
    | nil => simp [matchTerms]
    | cons x rest =>
      simp only [matchTerms, Atom.accepts, Bool.and_eq_true, decide_eq_true_eq, ih rest,
        List.cons_append, List.cons.injEq]
      constructor
      · rintro ⟨rfl, r, rfl, h⟩
        exact ⟨r, ⟨rfl, rfl⟩, h⟩
      · rintro ⟨r, ⟨rfl, rfl⟩, h⟩
        exact ⟨rfl, r, rfl, h⟩

theorem supported_of_literal (c : Char) (h : literal c = true) : supported c = true := by
  unfold literal at h
  unfold supported
  rcases Bool.or_eq_true _ _ ▸ h with h | h
  · simp only [Bool.or_eq_true]
    exact Or.inl (Or.inr h)
  · simp only [Bool.or_eq_true]
    exact Or.inr h

theorem regularFiles_eq (l : Listing) :
    l.regularFiles = (directory_iterator l).entries.filter (·.is_regular_file) := by
  induction l with
  | done => rfl
  | fail => rfl
  | file p f r rest ih => cases r <;> simp [Listing.regularFiles, directory_iterator, ih]
  | dir p f c rest _ ih => simp [Listing.regularFiles, directory_iterator, ih]

theorem matching_regularFiles (E : RegexEngine) (re : E.basic_regex) (l : Listing) :
    matching E re (directory_iterator l).entries
      = (l.regularFiles.filter (fun e => E.regex_match e.filename re)).map (·.path) := by
  simp [matching, regularFiles_eq, List.filter_filter, Bool.and_comm]

theorem runCalls_concat (E : RegexEngine) (calls : List Call) (c : Call) :
    runCalls E (calls ++ [c]) = c.run E (runCalls E calls) := by
  simp [runCalls, List.foldl_append]

theorem scan_buffers (E : RegexEngine) (fs : FileSystem) (pattern basePath : List Char)
    (recursive : Bool) (b : Buffers) :
    ((¬ (Call.scan fs pattern basePath recursive).failsMidWalk E) →
      (glob_cpp E fs pattern basePath recursive b).2.returnValues.length
        = (glob_cpp E fs pattern basePath recursive b).2.stringResult.length)
    ∧ ((Call.scan fs pattern basePath recursive).failsMidWalk E →
      (glob_cpp E fs pattern basePath recursive b).2.returnValues = []) := by
  have key := glob_cpp_eq E fs pattern basePath recursive b
  cases hc : E.compile (pattern_to_regex pattern) with
  | none =>
    rw [hc] at key
    rw [key]
    exact ⟨fun _ => rfl, fun _ => rfl⟩
  | some re =>
    cases hf : fs basePath with
    | none =>
      rw [hc, hf] at key
      rw [key]
      exact ⟨fun _ => rfl, fun _ => rfl⟩
    | some listing =>
      rw [hc, hf] at key
      cases hw : (if recursive then recursive_directory_iterator listing
          else directory_iterator listing).completed with
      | true =>
        simp only [hw, if_true] at key
        rw [key]
        refine ⟨fun _ => List.length_range _, ?_⟩
        rintro ⟨re', listing', -, hf', hw'⟩
        rw [hf] at hf'
        cases hf'
        rw [hw] at hw'
        cases hw'
      | false =>
        simp only [hw, Bool.false_eq_true, if_false] at key
        rw [key]
        exact ⟨fun hn => absurd ⟨re, listing, hc, hf, hw⟩ hn, fun _ => rfl⟩

theorem compile_translate (beyond : RegexEngine) (p : List Char)
    (hp : ∀ c ∈ p, supported c = true) :
    (ecmascript beyond).compile (pattern_to_regex p) = some (Sum.inl (p.map token)) := by
  have h := parseFrom_translate p hp []
  simp only [List.reverse_nil, List.nil_append] at h
  simp only [ecmascript, h]

/-! ## The claims -/

/-- C10: `pattern_to_regex` is the character-by-character translation: its
result is the concatenation of the images of the characters, where `*` gives
`.*`, `?` gives `.`, `.` gives backslash-dot and every other character,
the regex-special ones included, is copied unchanged; hence it distributes
over concatenation and sends the empty pattern to the empty expression. -/
theorem pattern_to_regex_characterwise (pattern other : List Char) :
    pattern_to_regex pattern = pattern.flatMap image
    ∧ image '*' = ['.', '*'] ∧ image '?' = ['.'] ∧ image '.' = ['\\', '.']
    ∧ (∀ c : Char, c ≠ '*' → c ≠ '?' → c ≠ '.' → image c = [c])
    ∧ (∀ c ∈ ['(', '[', '+', '|', '^', '$', '{', '\\'], pattern_to_regex [c] = [c])
    ∧ pattern_to_regex (pattern ++ other) = pattern_to_regex pattern ++ pattern_to_regex other
    ∧ pattern_to_regex [] = [] := by
  refine ⟨pattern_to_regex_flatMap pattern, rfl, rfl, rfl, ?_, ?_,
    pattern_to_regex_append pattern other, rfl⟩
  · intro c h1 h2 h3
    simp [image, h1, h2, h3]
  · decide

/-- C6: `glob_clear` leaves both buffers empty from every state, so the count
is zero and nothing is reachable through the exposed references; this holds in
particular after any scan, and a second `glob_clear` changes nothing. -/
theorem glob_clear_empties (b : Buffers) (E : RegexEngine) (fs : FileSystem)
    (pattern basePath : List Char) (recursive : Bool) :
    glob_clear b = ⟨[], []⟩
    ∧ (glob_clear b).stringResult.length = 0
    ∧ (glob_clear b).returnValues.length = 0
    ∧ (glob_clear b).exposed = []
    ∧ glob_clear (glob_cpp E fs pattern basePath recursive b).2 = ⟨[], []⟩
    ∧ glob_clear (glob_clear b) = glob_clear b := by
  refine ⟨rfl, rfl, rfl, rfl, rfl, rfl⟩

/-- C5: the outcome of `glob_cpp` does not depend on what the buffers held
before: from any prior buffers, in particular those left by an earlier scan,
the outcome and the buffers are those of the same call on empty buffers; and
after a successful call the staged strings, the strings exposed and the
returned count are exactly the matches of this call's walk. -/
theorem glob_cpp_forgets_earlier_results (E : RegexEngine) (fs : FileSystem)
    (pattern basePath : List Char) (recursive : Bool) (b : Buffers) :
    glob_cpp E fs pattern basePath recursive b
        = glob_cpp E fs pattern basePath recursive ⟨[], []⟩
    ∧ (∀ (fs0 : FileSystem) (pattern0 basePath0 : List Char) (recursive0 : Bool),
        glob_cpp E fs pattern basePath recursive
            (glob_cpp E fs0 pattern0 basePath0 recursive0 b).2
          = glob_cpp E fs pattern basePath recursive ⟨[], []⟩)
    ∧ (∀ ret, (glob_cpp E fs pattern basePath recursive b).1 = Except.ok ret →
        ∃ re listing, E.compile (pattern_to_regex pattern) = some re
          ∧ fs basePath = some listing
          ∧ (glob_cpp E fs pattern basePath recursive b).2.stringResult
              = matching E re (if recursive then recursive_directory_iterator listing
                  else directory_iterator listing).entries
          ∧ (glob_cpp E fs pattern basePath recursive b).2.exposed
              = matching E re (if recursive then recursive_directory_iterator listing
                  else directory_iterator listing).entries
          ∧ ret.out_size
              = (matching E re (if recursive then recursive_directory_iterator listing
                  else directory_iterator listing).entries).length) := by
  refine ⟨rfl, fun _ _ _ _ => rfl, ?_⟩
  intro ret hret
  rw [glob_cpp_eq] at hret ⊢
  cases hc : E.compile (pattern_to_regex pattern) with
  | none => rw [hc] at hret; simp at hret
  | some re =>
    cases hf : fs basePath with
    | none => rw [hc, hf] at hret; simp at hret
    | some listing =>
      refine ⟨re, listing, rfl, rfl, ?_⟩
      rw [hc, hf] at hret
      simp only at hret ⊢
      generalize (if recursive then recursive_directory_iterator listing
        else directory_iterator listing) = walk at hret ⊢
      cases hw : walk.completed with
      | false => rw [hw] at hret; simp at hret
      | true =>
        rw [hw] at hret
        simp only [if_true, Except.ok.injEq] at hret
        subst hret
        simp only [if_true]
        exact ⟨trivial, exposed_range _, trivial⟩

/-- C7: for a pattern that compiles, whatever `recursive` and the prior
buffers are, `glob_cpp` on a `basePath` that names no directory fails with
`filesystem_error` (the specification's `DirectoryAccessError`), returns no
entries, and leaves both buffers empty. -/
theorem glob_cpp_missing_directory (E : RegexEngine) (fs : FileSystem)
    (pattern basePath : List Char) (recursive : Bool) (b : Buffers) (re : E.basic_regex)
    (hvalid : E.compile (pattern_to_regex pattern) = some re)
    (hmissing : fs basePath = none) :
    glob_cpp E fs pattern basePath recursive b
        = (Except.error Failure.filesystem_error, ⟨[], []⟩)
    ∧ (glob_cpp E fs pattern basePath recursive b).2.exposed = [] := by
  have h : glob_cpp E fs pattern basePath recursive b
      = (Except.error Failure.filesystem_error, ⟨[], []⟩) := by
    rw [glob_cpp_eq, hvalid, hmissing]
  exact ⟨h, by rw [h]; rfl⟩

/-- An instance of the C7 theorem: a scan of a path that names no directory, on buffers holding an earlier result. -/
theorem glob_cpp_missing_directory_witness :
    (ecmascript rejecting).compile (pattern_to_regex "*.txt".toList)
        = some (Sum.inl [Term.star Atom.any, Term.one (Atom.chr '.'), Term.one (Atom.chr 't'),
            Term.one (Atom.chr 'x'), Term.one (Atom.chr 't')])
    ∧ sampleFs "nowhere".toList = none
    ∧ glob_cpp (ecmascript rejecting) sampleFs "*.txt".toList "nowhere".toList true
          ⟨["d\\old.txt".toList], [0]⟩
        = (Except.error Failure.filesystem_error, ⟨[], []⟩) :=
  ⟨rfl, rfl,
    (glob_cpp_missing_directory (ecmascript rejecting) sampleFs "*.txt".toList "nowhere".toList
      true ⟨["d\\old.txt".toList], [0]⟩ _ rfl rfl).1⟩

/-- C8: `glob_cpp` fails with `regex_error` (the specification's
`InvalidPattern`) exactly when the translation of the pattern does not
compile; it then does so whatever the file system and `basePath` are, before
the directory is opened, and leaves both buffers empty. -/
theorem glob_cpp_invalid_pattern (E : RegexEngine) (fs : FileSystem)
    (pattern basePath : List Char) (recursive : Bool) (b : Buffers) :
    ((glob_cpp E fs pattern basePath recursive b).1 = Except.error Failure.regex_error
        ↔ E.compile (pattern_to_regex pattern) = none)
    ∧ (E.compile (pattern_to_regex pattern) = none →
        glob_cpp E fs pattern basePath recursive b
          = (Except.error Failure.regex_error, ⟨[], []⟩)) := by
  rw [glob_cpp_eq]
  cases hc : E.compile (pattern_to_regex pattern) with
  | none => simp
  | some re =>
    cases hf : fs basePath with
    | none => simp
    | some listing =>
      simp only
      split_ifs <;> simp

/-- An instance of the C8 theorem: the pattern consisting of an opening parenthesis. -/
theorem glob_cpp_invalid_pattern_witness :
    (ecmascript rejecting).compile (pattern_to_regex "(".toList) = none
    ∧ glob_cpp (ecmascript rejecting) sampleFs "(".toList "d".toList false
          ⟨["d\\old.txt".toList], [0]⟩
        = (Except.error Failure.regex_error, ⟨[], []⟩) :=
  ⟨rfl,
    (glob_cpp_invalid_pattern (ecmascript rejecting) sampleFs "(".toList "d".toList false
      ⟨["d\\old.txt".toList], [0]⟩).2 rfl⟩

/-- C2: for a pattern that compiles and a directory that can be read to its
end, the non-recursive `glob_cpp` returns normally, and the strings it exposes
are exactly, in iteration order, the paths of the direct children that are
regular files and whose base filename the compiled pattern matches as a whole;
`*out_size` is their number. -/
theorem glob_cpp_direct_children (E : RegexEngine) (fs : FileSystem)
    (pattern basePath : List Char) (b : Buffers) (re : E.basic_regex) (listing : Listing)
    (hvalid : E.compile (pattern_to_regex pattern) = some re)
    (hdir : fs basePath = some listing)
    (hread : (directory_iterator listing).completed = true) :
    ∃ ret, (glob_cpp E fs pattern basePath false b).1 = Except.ok ret
      ∧ (glob_cpp E fs pattern basePath false b).2.exposed
          = (listing.regularFiles.filter (fun e => E.regex_match e.filename re)).map (·.path)
      ∧ ret.out_size = (glob_cpp E fs pattern basePath false b).2.exposed.length
      ∧ ret.data = (glob_cpp E fs pattern basePath false b).2.returnValues
      ∧ (glob_cpp E fs pattern basePath false b).2.stringResult
          = (glob_cpp E fs pattern basePath false b).2.exposed := by
  have h : glob_cpp E fs pattern basePath false b
      = (Except.ok ⟨List.range (matching E re (directory_iterator listing).entries).length,
            (matching E re (directory_iterator listing).entries).length⟩,
          ⟨matching E re (directory_iterator listing).entries,
            List.range (matching E re (directory_iterator listing).entries).length⟩) := by
    rw [glob_cpp_eq, hvalid, hdir]
    simp [hread]
  rw [h]
  refine ⟨_, rfl, ?_, ?_, rfl, ?_⟩
  · exact (exposed_range _).trans (matching_regularFiles E re listing)
  · exact congrArg List.length (exposed_range _).symm
  · exact (exposed_range _).symm

/-- An instance of the C2 theorem: the pattern matching the extension txt over the sample directory. -/
theorem glob_cpp_direct_children_witness :
    ∃ ret, (glob_cpp (ecmascript rejecting) sampleFs "*.txt".toList "d".toList false
          ⟨["d\\old.txt".toList], [0]⟩).1 = Except.ok ret
      ∧ (glob_cpp (ecmascript rejecting) sampleFs "*.txt".toList "d".toList false
          ⟨["d\\old.txt".toList], [0]⟩).2.exposed = ["d\\a.txt".toList]
      ∧ ret.out_size = 1 := by
  obtain ⟨ret, h1, h2, h3, -⟩ :=
    glob_cpp_direct_children (ecmascript rejecting) sampleFs "*.txt".toList "d".toList
      ⟨["d\\old.txt".toList], [0]⟩
      (Sum.inl [Term.star Atom.any, Term.one (Atom.chr '.'), Term.one (Atom.chr 't'),
        Term.one (Atom.chr 'x'), Term.one (Atom.chr 't')])
      sampleDir rfl rfl rfl
  refine ⟨ret, h1, by decide, ?_⟩
  rw [h3]
  decide

/-- C3: for a pattern that compiles and a directory tree that can be walked to
its end, the recursive `glob_cpp` returns normally and exposes, up to order,
exactly what the non-recursive call exposes together with the paths of the
regular files inside the subdirectories (at any depth) whose base filename the
compiled pattern matches as a whole. -/
theorem glob_cpp_recursive_extends_direct (E : RegexEngine) (fs : FileSystem)
    (pattern basePath : List Char) (b : Buffers) (re : E.basic_regex) (listing : Listing)
    (hvalid : E.compile (pattern_to_regex pattern) = some re)
    (hdir : fs basePath = some listing)
    (htree : (recursive_directory_iterator listing).completed = true) :
    (∃ ret, (glob_cpp E fs pattern basePath true b).1 = Except.ok ret
      ∧ ret.out_size = (glob_cpp E fs pattern basePath true b).2.exposed.length)
    ∧ (∃ ret, (glob_cpp E fs pattern basePath false b).1 = Except.ok ret)
    ∧ List.Perm (glob_cpp E fs pattern basePath true b).2.exposed
        ((glob_cpp E fs pattern basePath false b).2.exposed ++ matching E re listing.nested)
    ∧ (∀ path, path ∈ (glob_cpp E fs pattern basePath true b).2.exposed
        ↔ path ∈ (glob_cpp E fs pattern basePath false b).2.exposed
          ∨ ∃ e ∈ listing.nested, e.is_regular_file = true
              ∧ E.regex_match e.filename re = true ∧ e.path = path) := by
  have hread := recursive_completed_direct listing htree
  have hR : glob_cpp E fs pattern basePath true b
      = (Except.ok ⟨List.range (matching E re (recursive_directory_iterator listing).entries).length,
            (matching E re (recursive_directory_iterator listing).entries).length⟩,
          ⟨matching E re (recursive_directory_iterator listing).entries,
            List.range (matching E re (recursive_directory_iterator listing).entries).length⟩) := by
    rw [glob_cpp_eq, hvalid, hdir]
    simp [htree]
  have hD : glob_cpp E fs pattern basePath false b
      = (Except.ok ⟨List.range (matching E re (directory_iterator listing).entries).length,
            (matching E re (directory_iterator listing).entries).length⟩,
          ⟨matching E re (directory_iterator listing).entries,
            List.range (matching E re (directory_iterator listing).entries).length⟩) := by
    rw [glob_cpp_eq, hvalid, hdir]
    simp [hread]
  have hperm : List.Perm (matching E re (recursive_directory_iterator listing).entries)
      (matching E re (directory_iterator listing).entries ++ matching E re listing.nested) := by
    rw [← matching_append]
    exact matching_perm E re (recursive_entries_perm listing htree)
  rw [hR, hD]
  simp only [exposed_range]
  refine ⟨⟨_, rfl, rfl⟩, ⟨_, rfl⟩, hperm, ?_⟩
  intro path
  rw [hperm.mem_iff, List.mem_append]
  refine or_congr Iff.rfl ?_
  simp only [matching, List.mem_map, List.mem_filter, Bool.and_eq_true]
  constructor
  · rintro ⟨e, ⟨he, hr, hm⟩, hp⟩
    exact ⟨e, he, hr, hm, hp⟩
  · rintro ⟨e, he, hr, hm, hp⟩
    exact ⟨e, ⟨he, hr, hm⟩, hp⟩

/-- An instance of the C3 theorem: the pattern matching the extension txt over the sample directory. -/
theorem glob_cpp_recursive_extends_direct_witness :
    (glob_cpp (ecmascript rejecting) sampleFs "*.txt".toList "d".toList true
        ⟨[], []⟩).2.exposed = ["d\\a.txt".toList, "d\\sub\\c.txt".toList]
    ∧ List.Perm ["d\\a.txt".toList, "d\\sub\\c.txt".toList]
        (["d\\a.txt".toList] ++ ["d\\sub\\c.txt".toList]) := by
  have h := (glob_cpp_recursive_extends_direct (ecmascript rejecting) sampleFs "*.txt".toList
      "d".toList ⟨[], []⟩
      (Sum.inl [Term.star Atom.any, Term.one (Atom.chr '.'), Term.one (Atom.chr 't'),
        Term.one (Atom.chr 'x'), Term.one (Atom.chr 't')])
      sampleDir rfl rfl rfl).2.2.1
  have e1 : (glob_cpp (ecmascript rejecting) sampleFs "*.txt".toList "d".toList true
        ⟨[], []⟩).2.exposed = ["d\\a.txt".toList, "d\\sub\\c.txt".toList] := by decide
  have e2 : (glob_cpp (ecmascript rejecting) sampleFs "*.txt".toList "d".toList false
        ⟨[], []⟩).2.exposed = ["d\\a.txt".toList] := by decide
  have e3 : matching (ecmascript rejecting)
      (Sum.inl [Term.star Atom.any, Term.one (Atom.chr '.'), Term.one (Atom.chr 't'),
        Term.one (Atom.chr 'x'), Term.one (Atom.chr 't')]) sampleDir.nested
        = ["d\\sub\\c.txt".toList] := by decide
  rw [e1, e2, e3] at h
  exact ⟨e1, h⟩
/-- C9, as the code has it: after any sequence of `glob_clear` and `glob_cpp`
calls, failing ones included, the number of exposed references equals the
number of staged strings unless the last call was a `glob_cpp` that failed
part-way through the walk; after such a call no reference is exposed. -/
theorem exposed_count_after_calls (E : RegexEngine) (calls : List Call) :
    ((∀ c, calls.getLast? = some c → ¬ c.failsMidWalk E) →
      (runCalls E calls).returnValues.length = (runCalls E calls).stringResult.length)
    ∧ (∀ c, calls.getLast? = some c → c.failsMidWalk E →
      (runCalls E calls).returnValues = [] ∧ (runCalls E calls).exposed = []) := by
  rcases List.eq_nil_or_concat calls with rfl | ⟨L, c, rfl⟩
  · exact ⟨fun _ => rfl, fun c h => by simp at h⟩
  · rw [List.concat_eq_append, runCalls_concat]
    constructor
    · intro h
      have hc := h c (by simp)
      cases c with
      | clear => rfl
      | scan fs pattern basePath recursive =>
        exact (scan_buffers E fs pattern basePath recursive _).1 hc
    · intro c' hlast hfail
      have : c' = c := by simpa using hlast.symm
      subst this
      cases c' with
      | clear => exact ⟨rfl, rfl⟩
      | scan fs pattern basePath recursive =>
        have h := (scan_buffers E fs pattern basePath recursive (runCalls E L)).2 hfail
        refine ⟨h, ?_⟩
        simp only [Call.run, Buffers.exposed] at h ⊢
        rw [h]
        rfl

/-- Instances of the C9 theorem: a scan that completes after one that failed, and a scan that fails part-way after one that completed. -/
theorem exposed_count_after_calls_witness :
    (runCalls (ecmascript rejecting)
        [Call.scan lockedFs "*.txt".toList "d".toList true,
          Call.scan sampleFs "*.txt".toList "d".toList true]).returnValues.length = 2
    ∧ (runCalls (ecmascript rejecting)
        [Call.scan sampleFs "*.txt".toList "d".toList true,
          Call.scan lockedFs "*.txt".toList "d".toList true]).returnValues = [] := by
  constructor
  · have h := (exposed_count_after_calls (ecmascript rejecting)
        [Call.scan lockedFs "*.txt".toList "d".toList true,
          Call.scan sampleFs "*.txt".toList "d".toList true]).1
      (by
        intro c hc
        have : c = Call.scan sampleFs "*.txt".toList "d".toList true := by simpa using hc.symm
        subst this
        rintro ⟨re, listing, -, hfs, hw⟩
        have : listing = sampleDir := by
          have : sampleFs "d".toList = some sampleDir := rfl
          rw [this] at hfs
          exact (Option.some.inj hfs).symm
        subst this
        exact absurd hw (by decide))
    rw [h]
    decide
  · exact ((exposed_count_after_calls (ecmascript rejecting)
        [Call.scan sampleFs "*.txt".toList "d".toList true,
          Call.scan lockedFs "*.txt".toList "d".toList true]).2 _ rfl
      ⟨Sum.inl [Term.star Atom.any, Term.one (Atom.chr '.'), Term.one (Atom.chr 't'),
        Term.one (Atom.chr 'x'), Term.one (Atom.chr 't')], lockedDir, rfl, rfl, rfl⟩).1

/-- C9 fails as stated: a recursive scan for `*.txt` of a directory holding
`a.txt` and a subdirectory that cannot be opened fails with
`filesystem_error` after `a.txt` was staged; no reference is exposed, yet one
string stays staged, so the two counts differ. -/
theorem interrupted_walk_leaves_match_staged :
    (glob_cpp (ecmascript rejecting) lockedFs "*.txt".toList "d".toList true ⟨[], []⟩).1
        = Except.error Failure.filesystem_error
    ∧ (runCalls (ecmascript rejecting)
        [Call.scan lockedFs "*.txt".toList "d".toList true]).stringResult = ["d\\a.txt".toList]
    ∧ (runCalls (ecmascript rejecting)
        [Call.scan lockedFs "*.txt".toList "d".toList true]).returnValues = []
    ∧ (runCalls (ecmascript rejecting)
        [Call.scan lockedFs "*.txt".toList "d".toList true]).returnValues.length
      ≠ (runCalls (ecmascript rejecting)
        [Call.scan lockedFs "*.txt".toList "d".toList true]).stringResult.length := by
  refine ⟨rfl, by decide, by decide, by decide⟩
/-- C1, as the code has it: for every pattern over `*`, `?`, `.` and
characters with no special meaning to the regex engine, the translation
compiles, and for every filename without a line terminator (`\n`, `\r`)
whole-string matching succeeds exactly when the filename matches the pattern
under shell-glob semantics (`*` any run, `?` exactly one character, every
other character itself). -/
theorem translated_pattern_matches_as_glob (beyond : RegexEngine) (pattern : List Char)
    (hp : ∀ c ∈ pattern, supported c = true) :
    ∃ re, (ecmascript beyond).compile (pattern_to_regex pattern) = some re
      ∧ ∀ filename : List Char, (∀ c ∈ filename, isLineTerminator c = false) →
          ((ecmascript beyond).regex_match filename re = true ↔ ShellGlob pattern filename) :=
  ⟨Sum.inl (pattern.map token), compile_translate beyond pattern hp,
    fun filename hf => matchTerms_glob pattern filename hf⟩

/-- An instance of the C1 theorem. -/
theorem translated_pattern_matches_as_glob_witness :
    (∀ c ∈ "*.txt".toList, supported c = true)
    ∧ (∀ c ∈ "a.txt".toList, isLineTerminator c = false)
    ∧ ∃ re, (ecmascript rejecting).compile (pattern_to_regex "*.txt".toList) = some re
      ∧ ((ecmascript rejecting).regex_match "a.txt".toList re = true
          ↔ ShellGlob "*.txt".toList "a.txt".toList) := by
  obtain ⟨re, hre, h⟩ :=
    translated_pattern_matches_as_glob rejecting "*.txt".toList (by decide)
  exact ⟨by decide, by decide, re, hre, h "a.txt".toList (by decide)⟩

/-- C1 fails as stated: the pattern `?` translates to the expression `.`,
which compiles, and the one-character filename consisting of a line feed
matches `?` under shell-glob semantics, yet whole-string matching fails,
because the atom `.` accepts no line terminator. -/
theorem question_mark_rejects_line_feed :
    (∀ c ∈ ['?'], supported c = true)
    ∧ (ecmascript rejecting).compile (pattern_to_regex ['?']) = some (Sum.inl [Term.one Atom.any])
    ∧ (ecmascript rejecting).regex_match ['\n'] (Sum.inl [Term.one Atom.any]) = false
    ∧ ShellGlob ['?'] ['\n'] := by
  refine ⟨by decide, rfl, rfl, ?_⟩
  simp [ShellGlob]

/-- C4, as the code has it: for every literal prefix `p` and suffix `s`, the
pattern `p?s` compiles and matches a filename exactly when the filename is
`p`, then exactly one character that is not a line terminator (`\n`, `\r`),
then `s`. -/
theorem question_mark_takes_one_character (beyond : RegexEngine) (p s : List Char)
    (hps : ∀ c ∈ p ++ s, literal c = true) :
    ∃ re, (ecmascript beyond).compile (pattern_to_regex (p ++ '?' :: s)) = some re
      ∧ ∀ filename : List Char, ((ecmascript beyond).regex_match filename re = true
          ↔ ∃ c, isLineTerminator c = false ∧ filename = p ++ c :: s) := by
  have hp : ∀ c ∈ p, literal c = true := fun c hc => hps c (List.mem_append_left _ hc)
  have hs : ∀ c ∈ s, literal c = true := fun c hc => hps c (List.mem_append_right _ hc)
  have hall : ∀ c ∈ p ++ '?' :: s, supported c = true := by
    intro c hc
    rcases List.mem_append.mp hc with h | h
    · exact supported_of_literal c (hp c h)
    · rcases List.mem_cons.mp h with rfl | h
      · rfl
      · exact supported_of_literal c (hs c h)
  refine ⟨Sum.inl ((p ++ '?' :: s).map token), compile_translate beyond _ hall, ?_⟩
  intro filename
  show matchTerms ((p ++ '?' :: s).map token) filename = true ↔ _
  have ht : token '?' = Term.one Atom.any := rfl
  rw [List.map_append, List.map_cons, ht, matchTerms_literals p hp]
  constructor
  · rintro ⟨rest, rfl, h⟩
    cases rest with
    | nil => simp [matchTerms] at h
    | cons c rest =>
      simp only [matchTerms, Atom.accepts, Bool.and_eq_true, Bool.not_eq_true'] at h
      have h2 := (matchTerms_literals s hs [] rest).mp (by simpa using h.2)
      obtain ⟨r, hr, hnil⟩ := h2
      cases r with
      | nil => exact ⟨c, h.1, by rw [hr, List.append_nil]⟩
      | cons y ys => simp [matchTerms] at hnil
  · rintro ⟨c, hc, rfl⟩
    refine ⟨c :: s, rfl, ?_⟩
    simp only [matchTerms, Atom.accepts, hc, Bool.not_false, Bool.true_and]
    have := (matchTerms_literals s hs [] s).mpr ⟨[], by simp, rfl⟩
    simpa using this

/-- An instance of the C4 theorem: the pattern of the specification, prefix file and suffix dot-log. -/
theorem question_mark_takes_one_character_witness :
    (∀ c ∈ "file".toList ++ ".log".toList, literal c = true)
    ∧ ∃ re, (ecmascript rejecting).compile
          (pattern_to_regex ("file".toList ++ '?' :: ".log".toList)) = some re
      ∧ (ecmascript rejecting).regex_match "file1.log".toList re = true
      ∧ (ecmascript rejecting).regex_match "fileA.log".toList re = true
      ∧ ¬ (ecmascript rejecting).regex_match "file12.log".toList re = true
      ∧ ¬ (ecmascript rejecting).regex_match "file.log".toList re = true := by
  obtain ⟨re, hre, h⟩ :=
    question_mark_takes_one_character rejecting "file".toList ".log".toList (by decide)
  refine ⟨by decide, re, hre, (h _).mpr ⟨'1', rfl, rfl⟩, (h _).mpr ⟨'A', rfl, rfl⟩, ?_, ?_⟩
  · rw [h]
    rintro ⟨c, -, hc⟩
    have hlen := congrArg List.length hc
    simp at hlen
  · rw [h]
    rintro ⟨c, -, hc⟩
    have hlen := congrArg List.length hc
    simp at hlen

/-- C4 fails as stated: the filename `a`, line feed, `b` is `a`, then exactly
one character, then `b`, yet it does not match the pattern `a?b`. -/
theorem question_mark_skips_line_feed :
    (∀ c ∈ ['a'] ++ ['b'], literal c = true)
    ∧ (ecmascript rejecting).compile (pattern_to_regex (['a'] ++ '?' :: ['b']))
        = some (Sum.inl [Term.one (Atom.chr 'a'), Term.one Atom.any, Term.one (Atom.chr 'b')])
    ∧ (ecmascript rejecting).regex_match ['a', '\n', 'b']
        (Sum.inl [Term.one (Atom.chr 'a'), Term.one Atom.any, Term.one (Atom.chr 'b')]) = false
    ∧ ∃ c, ['a', '\n', 'b'] = ['a'] ++ c :: ['b'] :=
  ⟨by decide, rfl, rfl, '\n', rfl⟩

/-- The examples of the specification for `file?.log`: `file1.log` and
`fileA.log` match, `file12.log` and `file.log` do not. -/
theorem file_question_log_examples :
    (ecmascript rejecting).compile (pattern_to_regex "file?.log".toList)
        = some (Sum.inl ("file?.log".toList.map token))
    ∧ matchTerms ("file?.log".toList.map token) "file1.log".toList = true
    ∧ matchTerms ("file?.log".toList.map token) "fileA.log".toList = true
    ∧ matchTerms ("file?.log".toList.map token) "file12.log".toList = false
    ∧ matchTerms ("file?.log".toList.map token) "file.log".toList = false :=
  ⟨rfl, by decide, by decide, by decide, by decide⟩

/-- An instance of the C5 theorem: a scan run on the buffers an earlier,
different scan left behind. -/
theorem glob_cpp_forgets_earlier_results_witness :
    glob_cpp (ecmascript rejecting) sampleFs "*.txt".toList "d".toList false
        (glob_cpp (ecmascript rejecting) sampleFs "*".toList "d".toList true ⟨[], []⟩).2
      = (Except.ok ⟨[0], 1⟩, ⟨["d\\a.txt".toList], [0]⟩) :=
  ((glob_cpp_forgets_earlier_results (ecmascript rejecting) sampleFs "*.txt".toList "d".toList
    false ⟨[], []⟩).2.1 sampleFs "*".toList "d".toList true).trans rfl

/-- An instance of the C10 theorem: a pattern holding wildcards, a dot, and
characters that are special to the regex engine. -/
theorem pattern_to_regex_characterwise_witness :
    pattern_to_regex "a(b*.c?[".toList = "a(b.*\\.c.[".toList :=
  (pattern_to_regex_characterwise "a(b*.c?[".toList []).1.trans (by decide)

end Glob
